import Mathlib

/-!
Verification of the customer-sentiment-hub repository.

This file gives a shallow embedding of the parts of the code that the
checked claims are about:

* `domain/taxonomy.py` — the fixed category/subcategory/sentiment taxonomy
  and its lookup helpers;
* `domain/validation.py` — `ValidationService.clean_sentiment` and
  `ValidationService.validate_and_fix_label`;
* `services/gemini_service.py` — `GeminiService._clean_results`;
* `services/processor.py` — `ReviewProcessor.process_reviews` and
  `ReviewProcessor._process_in_batches`;
* `api/routes.py` — the `POST /analyze` handler;
* `services/freshdesk_service.py` — `FreshdeskService.__init__` and
  `FreshdeskService.validate_webhook_signature`;
* `domain/schema.py` — `AnalysisRequest` (absent from the sources; modelled
  from the specification, see its doc comment).

Python `str` is modelled as Lean `String`, Python `dict`s with a fixed key
vocabulary as structures of `Option` fields (`none` = key absent), and the
repository's `Result` type (`utils/result.py`) as the inductive `PyResult`.
-/

namespace SentimentHub

/-- Python's `s.lower()` (ASCII case folding; characters without a lower-case
mapping are unchanged, as in CPython for the character data appearing here). -/
def pyLower (s : String) : String := ⟨s.data.map Char.toLower⟩

/-- `startsWithSeq needle hay`: `hay` begins with `needle`. -/
def startsWithSeq : List Char → List Char → Bool
  | [], _ => true
  | _ :: _, [] => false
  | c :: cs, d :: ds => c = d && startsWithSeq cs ds

/-- `containsSeq needle hay`: `needle` occurs as a contiguous run in `hay`
(Python's `needle in hay` on strings). -/
def containsSeq (needle : List Char) : List Char → Bool
  | [] => needle.isEmpty
  | c :: cs => startsWithSeq needle (c :: cs) || containsSeq needle cs

/-- Python's substring test `needle in hay`. -/
def pyIn (needle hay : String) : Bool := containsSeq needle.data hay.data

/-! ## domain/taxonomy.py -/

/-- `TAXONOMY["Categories"].keys()` in source order. -/
def allCategories : List String :=
  ["Product & Services", "Billing & Payments", "Communication",
   "Agent Specific", "Sales / Affiliate Related", "Miscellaneous"]

/-- The three members of the `Sentiment` enum, in declaration order. -/
def allSentiments : List String := ["Positive", "Negative", "Neutral"]

/-- `TAXONOMY["Categories"][cat][sent]`, written out from the literal in
`domain/taxonomy.py`; the default `frozenset()` of the `.get` chains is `[]`.
Each `frozenset` literal is kept in its source order. -/
def taxonomyLookup (cat sent : String) : List String :=
  if cat = "Product & Services" then
    if sent = "Negative" then
      ["Unsettled Debt", "Progress Pace", "Procedure", "Settlement Percentage",
       "Creditor Correspondence", "Debt Priority", "Settlement Failure",
       "Summons", "Legal Procedure", "Legal Plan Representation",
       "Lending", "Unmet Expectations (Services)", "Delayed Cancellation Requests"]
    else if sent = "Positive" then
      ["Progress Pace", "Procedure", "Settlement Percentage",
       "Creditor Correspondence", "Debt Priority", "Legal Procedure"]
    else if sent = "Neutral" then
      ["Progress Pace", "Procedure", "Settlement Percentage",
       "Creditor Correspondence", "Debt Priority", "Legal Procedure",
       "Unsettled Debt"]
    else []
  else if cat = "Billing & Payments" then
    if sent = "Negative" then
      ["Fee Collection", "Additional Funds", "Program Extension",
       "Draft Amount", "Delayed Refunds", "Unauthorized Drafts",
       "Fees Amount", "Legal Plan Fees", "Refund Amount"]
    else if sent = "Positive" then
      ["Fee Collection", "Timely Refunds", "Fees Amount", "Legal Plan Fees"]
    else if sent = "Neutral" then
      ["Fee Collection", "Fees Amount", "Legal Plan Fees"]
    else []
  else if cat = "Communication" then
    if sent = "Negative" then
      ["Frequency of Calls (High)", "Communication Method", "Delayed Responses",
       "No Response", "Unmet Expectations", "Difficulty in Reaching Support",
       "Customer Portal", "Legal Plan Communication",
       "Unclear Communication / Misleading Information", "Frequency of Calls (Low)",
       "Request Not Fulfilled"]
    else if sent = "Positive" then
      ["Clear Communication", "Accurate Information", "Frequency of Calls",
       "Communication Method", "Timely Responses", "Ease of Access", "Expectations Met"]
    else if sent = "Neutral" then
      ["Communication Method", "Frequency of Calls", "Customer Portal"]
    else []
  else if cat = "Agent Specific" then
    if sent = "Negative" then
      ["False Promises", "Knowledge", "Communication & Soft Skills", "Missed Follow-up"]
    else if sent = "Positive" then
      ["Knowledge", "Communication & Soft Skills"]
    else if sent = "Neutral" then
      ["Knowledge", "Communication & Soft Skills"]
    else []
  else if cat = "Sales / Affiliate Related" then
    if sent = "Negative" then
      ["Misrepresentation of Services", "Lack of Follow-up by Affiliate",
       "Misrepresentation of Legal Plan Services"]
    else if sent = "Positive" then
      ["Satisfactory Practices"]
    else if sent = "Neutral" then
      ["Satisfactory Practices"]
    else []
  else if cat = "Miscellaneous" then
    if sent = "Negative" then
      ["Creditor Calls", "Credit Score", "Other", "Scam / Fraud Allegations", "Judgement"]
    else if sent = "Positive" then
      ["Credit Score"]
    else if sent = "Neutral" then
      ["Credit Score", "Other"]
    else []
  else []

/-- `get_valid_subcategories()[cat]`: the union of the three per-sentiment
sets of `cat` (built in the source by iterating the `Sentiment` enum, i.e.
Positive then Negative then Neutral; as a membership test the order of the
union is irrelevant). Unknown categories give `[]`, matching the
`.get(category, frozenset())` uses at the call sites. -/
def validSubcategories (cat : String) : List String :=
  taxonomyLookup cat "Positive" ++ taxonomyLookup cat "Negative" ++ taxonomyLookup cat "Neutral"

/-- `get_category_for_subcategory(sub)`: lookup in `_SUBCATEGORY_TO_CATEGORY`,
default `"Miscellaneous"`. The reverse index is built by one pass over the
taxonomy; each subcategory string occurs under exactly one category (checked
by `subcategory_categories_disjoint` below), so last-write-wins dict
construction coincides with a first-match search over the categories. -/
def getCategoryForSubcategory (sub : String) : String :=
  match allCategories.find? (fun c => decide (sub ∈ validSubcategories c)) with
  | some c => c
  | none => "Miscellaneous"

/-- `is_valid_subcategory_for_category(category, subcategory)`. -/
def isValidSubcategoryForCategory (cat sub : String) : Bool :=
  decide (sub ∈ validSubcategories cat)

/-! ## domain/validation.py — clean_sentiment -/

/-- `ValidationService.clean_sentiment`.  The argument is `Option String`
because the Python parameter may be `None`; `if not sentiment` is true for
`None` and for the empty string.  The `sentiment_map` dict lookup is written
as the chain of key comparisons it performs (the twelve keys are distinct);
when no key matches, the source falls back to substring matching, trying
"positive", then "negative", then "neutral", and defaults to `"Neutral"`.
The `lru_cache` memoization has no observable effect on a pure function.
`sentimentFromLower` is the body run on the lower-cased value. -/
def sentimentFromLower (lower : String) : String :=
  if lower = "positive" then "Positive"
  else if lower = "pos" then "Positive"
  else if lower = "good" then "Positive"
  else if lower = "favorable" then "Positive"
  else if lower = "negative" then "Negative"
  else if lower = "neg" then "Negative"
  else if lower = "bad" then "Negative"
  else if lower = "unfavorable" then "Negative"
  else if lower = "neutral" then "Neutral"
  else if lower = "neither" then "Neutral"
  else if lower = "mixed" then "Neutral"
  else if lower = "balanced" then "Neutral"
  else if pyIn "positive" lower then "Positive"
  else if pyIn "negative" lower then "Negative"
  else if pyIn "neutral" lower then "Neutral"
  else "Neutral"

def cleanSentiment : Option String → String
  | none => "Neutral"
  | some s => if s = "" then "Neutral" else sentimentFromLower (pyLower s)

/-! ## domain/validation.py — validate_and_fix_label

A label is a Python dict whose keys of interest are `category`,
`subcategory`, `sentiment` and (on processor placeholders) `error`; a `none`
field models an absent key.  `validate_and_fix_label` picks replacement
subcategories with `next(iter(<frozenset>))`, whose choice of element CPython
does not specify (string hashing is seed-dependent); the embedding therefore
takes a choice function `pick` applied to the set (as a list in source
order), and theorems assume only `pick l ∈ l` for `l ≠ []`. -/

structure LabelDict where
  category? : Option String
  subcategory? : Option String
  sentiment? : Option String
  error? : Option String := none
  deriving DecidableEq, Repr

/-- `valid_sentiments` cached on the service (`frozenset(s.value for s in Sentiment)`). -/
def validSentiments : List String := allSentiments

/-- Steps 4 and 5 of `validate_and_fix_label` share this replacement body
verbatim (the source duplicates it): choose a subcategory for the current
category and sentiment, else `"Other"`, else any valid subcategory, else
fall back to `Miscellaneous`/`Other`. -/
def selectSubcategory (pick : List String → String) (f : LabelDict) : LabelDict :=
  let category := f.category?.getD ""
  let sentiment := f.sentiment?.getD ""
  let subcats := taxonomyLookup category sentiment
  if subcats ≠ [] then
    { f with subcategory? := some (pick subcats) }
  else
    let allSubcats := validSubcategories category
    if "Other" ∈ allSubcats then
      { f with subcategory? := some "Other" }
    else if allSubcats ≠ [] then
      { f with subcategory? := some (pick allSubcats) }
    else
      { f with category? := some "Miscellaneous", subcategory? := some "Other" }

/-- Step 3 of `validate_and_fix_label`: repair an invalid category (it may be
a sentiment, or a subcategory placed in the wrong field).  The category key is
always present when this step runs (step 2 guarantees it), so the `.getD ""`
is never the default on reachable inputs. -/
def fixCategoryStep (f : LabelDict) : LabelDict :=
  let cat := f.category?.getD ""
  if cat ∈ allCategories then f
  else if cat ∈ validSentiments then
    let f1 := { f with sentiment? := some cat }
    match f1.subcategory? with
    | some sub => { f1 with category? := some (getCategoryForSubcategory sub) }
    | none => { f1 with category? := some "Miscellaneous", subcategory? := some "Other" }
  else
    let subcategory := cat
    let parent := getCategoryForSubcategory subcategory
    if parent ≠ "Miscellaneous" ∨ subcategory = "Other" then
      { f with subcategory? := some subcategory, category? := some parent }
    else
      { f with category? := some "Miscellaneous", subcategory? := some "Other" }

/-- Steps 4 and 5 of `validate_and_fix_label`: fill in a missing subcategory,
or replace one that is invalid for the (by now valid) category. -/
def fixSubcategoryStep (pick : List String → String) (f : LabelDict) : LabelDict :=
  match f.subcategory? with
  | none => selectSubcategory pick f
  | some sub =>
    if isValidSubcategoryForCategory (f.category?.getD "") sub then f
    else selectSubcategory pick f

/-- `ValidationService.validate_and_fix_label`.  Step 1 cleans the sentiment
(defaulting an absent key to `"Neutral"`); step 2 handles an absent category,
returning `{Miscellaneous, Other}` immediately when the subcategory is also
absent (the source's early `return`); steps 3–5 are `fixCategoryStep` and
`fixSubcategoryStep`.  The returned dict is a corrected copy of the argument
(`fixed_label = label.copy()`); the heap-level copy discipline is modelled
separately by `validateAndFixLabelRef`. -/
def validateAndFixLabel (pick : List String → String) (label : LabelDict) : LabelDict :=
  -- Step 1: clean sentiment
  let f1 : LabelDict :=
    match label.sentiment? with
    | some s => { label with sentiment? := some (cleanSentiment (some s)) }
    | none => { label with sentiment? := some "Neutral" }
  -- Step 2: handle category-related issues
  match f1.category? with
  | none =>
    match f1.subcategory? with
    | some sub =>
      fixSubcategoryStep pick (fixCategoryStep
        { f1 with category? := some (getCategoryForSubcategory sub) })
    | none =>
      { f1 with category? := some "Miscellaneous", subcategory? := some "Other" }
  | some _ => fixSubcategoryStep pick (fixCategoryStep f1)

/-- `next(iter(s))` instantiated with the head of the source-order listing:
one concrete admissible choice function, used by witnesses. -/
def pickHead (l : List String) : String := l.headD ""

/-- The taxonomy invariant a surfaced label must satisfy: category and
subcategory keys present, the category one of the six valid ones, the
subcategory valid for it. -/
def labelConforms (l : LabelDict) : Bool :=
  match l.category?, l.subcategory? with
  | some c, some s => decide (c ∈ allCategories) && decide (s ∈ validSubcategories c)
  | _, _ => false

/-! ## Taxonomy lemmas -/

/-- A per-sentiment taxonomy cell is contained in the category's subcategory
union. -/
theorem mem_validSubcategories_of_mem_taxonomyLookup {x cat sent : String}
    (h : x ∈ taxonomyLookup cat sent) : x ∈ validSubcategories cat := by
  unfold validSubcategories
  by_cases hp : sent = "Positive"
  · subst hp; exact List.mem_append_left _ (List.mem_append_left _ h)
  · by_cases hn : sent = "Negative"
    · subst hn; exact List.mem_append_left _ (List.mem_append_right _ h)
    · by_cases hu : sent = "Neutral"
      · subst hu; exact List.mem_append_right _ h
      · exfalso
        unfold taxonomyLookup at h
        split_ifs at h <;> simp_all

/-- The reverse index always answers with one of the six categories. -/
theorem getCategoryForSubcategory_mem (sub : String) :
    getCategoryForSubcategory sub ∈ allCategories := by
  unfold getCategoryForSubcategory
  cases h : allCategories.find? (fun c => decide (sub ∈ validSubcategories c)) with
  | none => decide
  | some c => exact List.mem_of_find?_eq_some h

/-- When the reverse index finds a category, the subcategory is valid for it. -/
theorem getCategoryForSubcategory_spec (sub : String)
    (h : getCategoryForSubcategory sub ≠ "Miscellaneous") :
    sub ∈ validSubcategories (getCategoryForSubcategory sub) := by
  unfold getCategoryForSubcategory at h ⊢
  cases hf : allCategories.find? (fun c => decide (sub ∈ validSubcategories c)) with
  | none => rw [hf] at h; exact absurd rfl h
  | some c =>
    show sub ∈ validSubcategories c
    simpa using List.find?_some hf

/-! ## C2 machinery: every output of validate_and_fix_label conforms -/

/-- Soundness condition on the `next(iter(...))` model: the choice function
returns an element of a non-empty set. -/
def PickSound (pick : List String → String) : Prop :=
  ∀ l : List String, l ≠ [] → pick l ∈ l

theorem pickHead_sound : PickSound pickHead := by
  intro l hl
  cases l with
  | nil => exact absurd rfl hl
  | cons a t => exact List.mem_cons_self a t

theorem selectSubcategory_conforms {pick : List String → String}
    (hpick : PickSound pick) (f : LabelDict) {c : String}
    (hc : f.category? = some c) (hmem : c ∈ allCategories) :
    labelConforms (selectSubcategory pick f) = true := by
  simp only [selectSubcategory, hc, Option.getD_some]
  split_ifs with h1 h2 h3
  · have hp := hpick _ h1
    have hv := mem_validSubcategories_of_mem_taxonomyLookup hp
    simp [labelConforms, hc, hmem, hv]
  · have hv : "Other" ∈ validSubcategories c := by simpa using h2
    simp [labelConforms, hc, hmem, hv]
  · have hp := hpick _ h3
    simp [labelConforms, hc, hmem, hp]
  · simp [labelConforms]; decide

theorem fixCategoryStep_valid (f : LabelDict) (h : f.category?.isSome) :
    ∃ c, (fixCategoryStep f).category? = some c ∧ c ∈ allCategories := by
  obtain ⟨c0, hc0⟩ := Option.isSome_iff_exists.mp h
  simp only [fixCategoryStep, hc0, Option.getD_some]
  split_ifs with h1 h2 h3
  · exact ⟨c0, by simp [hc0], h1⟩
  · cases hs : f.subcategory? with
    | some sub =>
      exact ⟨_, by simp [hs], getCategoryForSubcategory_mem sub⟩
    | none => exact ⟨"Miscellaneous", by simp [hs], by decide⟩
  · exact ⟨getCategoryForSubcategory c0, by simp, getCategoryForSubcategory_mem c0⟩
  · exact ⟨"Miscellaneous", by simp, by decide⟩

theorem fixSubcategoryStep_conforms {pick : List String → String}
    (hpick : PickSound pick) (f : LabelDict) {c : String}
    (hc : f.category? = some c) (hmem : c ∈ allCategories) :
    labelConforms (fixSubcategoryStep pick f) = true := by
  cases hs : f.subcategory? with
  | none =>
    simp only [fixSubcategoryStep, hs]
    exact selectSubcategory_conforms hpick f hc hmem
  | some sub =>
    simp only [fixSubcategoryStep, hs, hc, Option.getD_some]
    split_ifs with h1
    · have hv : sub ∈ validSubcategories c := by
        simpa [isValidSubcategoryForCategory] using h1
      simp [labelConforms, hc, hs, hmem, hv]
    · exact selectSubcategory_conforms hpick f hc hmem

/-- Steps 3–5 combined: once a category key is present, the result conforms. -/
theorem step345_conforms {pick : List String → String}
    (hpick : PickSound pick) (f : LabelDict) (h : f.category?.isSome) :
    labelConforms (fixSubcategoryStep pick (fixCategoryStep f)) = true := by
  obtain ⟨c, hc, hmem⟩ := fixCategoryStep_valid f h
  exact fixSubcategoryStep_conforms hpick _ hc hmem

/-- Main conformance helper: whatever the input dict, the repaired label has a
valid category and a subcategory valid for it. -/
theorem validateAndFixLabel_conforms {pick : List String → String}
    (hpick : PickSound pick) (label : LabelDict) :
    labelConforms (validateAndFixLabel pick label) = true := by
  unfold validateAndFixLabel
  cases hsent : label.sentiment? with
  | some s =>
    cases hcat : label.category? with
    | none =>
      cases hsub : label.subcategory? with
      | some sub =>
        simp only [hsent, hcat, hsub]
        exact step345_conforms hpick _ (by simp)
      | none =>
        simp only [hsent, hcat, hsub, labelConforms]
        decide
    | some c0 =>
      simp only [hsent, hcat]
      exact step345_conforms hpick _ (by simp)
  | none =>
    cases hcat : label.category? with
    | none =>
      cases hsub : label.subcategory? with
      | some sub =>
        simp only [hsent, hcat, hsub]
        exact step345_conforms hpick _ (by simp)
      | none =>
        simp only [hsent, hcat, hsub, labelConforms]
        decide
    | some c0 =>
      simp only [hsent, hcat]
      exact step345_conforms hpick _ (by simp)

/-! ## clean_sentiment lemmas -/

theorem sentimentFromLower_positive (l : String) (h : pyIn "positive" l = true) :
    sentimentFromLower l = "Positive" := by
  by_cases h1 : l = "positive"
  · subst h1; decide
  by_cases h2 : l = "pos"
  · subst h2; decide
  by_cases h3 : l = "good"
  · subst h3; decide
  by_cases h4 : l = "favorable"
  · subst h4; decide
  by_cases h5 : l = "negative"
  · subst h5; exact absurd h (by decide)
  by_cases h6 : l = "neg"
  · subst h6; exact absurd h (by decide)
  by_cases h7 : l = "bad"
  · subst h7; exact absurd h (by decide)
  by_cases h8 : l = "unfavorable"
  · subst h8; exact absurd h (by decide)
  by_cases h9 : l = "neutral"
  · subst h9; exact absurd h (by decide)
  by_cases h10 : l = "neither"
  · subst h10; exact absurd h (by decide)
  by_cases h11 : l = "mixed"
  · subst h11; exact absurd h (by decide)
  by_cases h12 : l = "balanced"
  · subst h12; exact absurd h (by decide)
  simp only [sentimentFromLower, h, if_neg h1, if_neg h2, if_neg h3, if_neg h4,
    if_neg h5, if_neg h6, if_neg h7, if_neg h8, if_neg h9, if_neg h10,
    if_neg h11, if_neg h12, if_true]

theorem sentimentFromLower_negative (l : String) (h : pyIn "negative" l = true)
    (hp : pyIn "positive" l = false) : sentimentFromLower l = "Negative" := by
  by_cases h1 : l = "positive"
  · subst h1; exact absurd h (by decide)
  by_cases h2 : l = "pos"
  · subst h2; exact absurd h (by decide)
  by_cases h3 : l = "good"
  · subst h3; exact absurd h (by decide)
  by_cases h4 : l = "favorable"
  · subst h4; exact absurd h (by decide)
  by_cases h5 : l = "negative"
  · subst h5; decide
  by_cases h6 : l = "neg"
  · subst h6; decide
  by_cases h7 : l = "bad"
  · subst h7; exact absurd h (by decide)
  by_cases h8 : l = "unfavorable"
  · subst h8; exact absurd h (by decide)
  by_cases h9 : l = "neutral"
  · subst h9; exact absurd h (by decide)
  by_cases h10 : l = "neither"
  · subst h10; exact absurd h (by decide)
  by_cases h11 : l = "mixed"
  · subst h11; exact absurd h (by decide)
  by_cases h12 : l = "balanced"
  · subst h12; exact absurd h (by decide)
  simp only [sentimentFromLower, h, hp, if_neg h1, if_neg h2, if_neg h3, if_neg h4,
    if_neg h5, if_neg h6, if_neg h7, if_neg h8, if_neg h9, if_neg h10,
    if_neg h11, if_neg h12, if_true, Bool.false_eq_true, if_false]

theorem sentimentFromLower_neutral (l : String) (h : pyIn "neutral" l = true)
    (hp : pyIn "positive" l = false) (hn : pyIn "negative" l = false) :
    sentimentFromLower l = "Neutral" := by
  by_cases h1 : l = "positive"
  · subst h1; exact absurd h (by decide)
  by_cases h2 : l = "pos"
  · subst h2; exact absurd h (by decide)
  by_cases h3 : l = "good"
  · subst h3; exact absurd h (by decide)
  by_cases h4 : l = "favorable"
  · subst h4; exact absurd h (by decide)
  by_cases h5 : l = "negative"
  · subst h5; exact absurd h (by decide)
  by_cases h6 : l = "neg"
  · subst h6; exact absurd h (by decide)
  by_cases h7 : l = "bad"
  · subst h7; exact absurd h (by decide)
  by_cases h8 : l = "unfavorable"
  · subst h8; exact absurd h (by decide)
  by_cases h9 : l = "neutral"
  · subst h9; decide
  by_cases h10 : l = "neither"
  · subst h10; exact absurd h (by decide)
  by_cases h11 : l = "mixed"
  · subst h11; exact absurd h (by decide)
  by_cases h12 : l = "balanced"
  · subst h12; exact absurd h (by decide)
  simp only [sentimentFromLower, h, hp, hn, if_neg h1, if_neg h2, if_neg h3, if_neg h4,
    if_neg h5, if_neg h6, if_neg h7, if_neg h8, if_neg h9, if_neg h10,
    if_neg h11, if_neg h12, if_true, Bool.false_eq_true, if_false]

theorem sentimentFromLower_mem (l : String) : sentimentFromLower l ∈ allSentiments := by
  by_cases h1 : l = "positive"
  · subst h1; decide
  by_cases h2 : l = "pos"
  · subst h2; decide
  by_cases h3 : l = "good"
  · subst h3; decide
  by_cases h4 : l = "favorable"
  · subst h4; decide
  by_cases h5 : l = "negative"
  · subst h5; decide
  by_cases h6 : l = "neg"
  · subst h6; decide
  by_cases h7 : l = "bad"
  · subst h7; decide
  by_cases h8 : l = "unfavorable"
  · subst h8; decide
  by_cases h9 : l = "neutral"
  · subst h9; decide
  by_cases h10 : l = "neither"
  · subst h10; decide
  by_cases h11 : l = "mixed"
  · subst h11; decide
  by_cases h12 : l = "balanced"
  · subst h12; decide
  simp only [sentimentFromLower, if_neg h1, if_neg h2, if_neg h3, if_neg h4,
    if_neg h5, if_neg h6, if_neg h7, if_neg h8, if_neg h9, if_neg h10,
    if_neg h11, if_neg h12]
  by_cases p1 : pyIn "positive" l = true
  · simp only [p1, if_true]; decide
  simp only [if_neg p1]
  by_cases p2 : pyIn "negative" l = true
  · simp only [p2, if_true]; decide
  simp only [if_neg p2]
  by_cases p3 : pyIn "neutral" l = true
  · simp only [p3, if_true]; decide
  simp only [if_neg p3]
  decide

/-- The twelve keys of the `sentiment_map` synonym dict, in source order. -/
def sentimentSynonymKeys : List String :=
  ["positive", "pos", "good", "favorable",
   "negative", "neg", "bad", "unfavorable",
   "neutral", "neither", "mixed", "balanced"]

/-- A lower-cased value that is no synonym key and contains none of the
three substrings falls through every branch to the default `"Neutral"`. -/
theorem sentimentFromLower_unrecognized (l : String)
    (hk : l ∉ sentimentSynonymKeys)
    (hp : pyIn "positive" l = false) (hn : pyIn "negative" l = false)
    (hu : pyIn "neutral" l = false) : sentimentFromLower l = "Neutral" := by
  have h1 : l ≠ "positive" := fun h => hk (by rw [h]; decide)
  have h2 : l ≠ "pos" := fun h => hk (by rw [h]; decide)
  have h3 : l ≠ "good" := fun h => hk (by rw [h]; decide)
  have h4 : l ≠ "favorable" := fun h => hk (by rw [h]; decide)
  have h5 : l ≠ "negative" := fun h => hk (by rw [h]; decide)
  have h6 : l ≠ "neg" := fun h => hk (by rw [h]; decide)
  have h7 : l ≠ "bad" := fun h => hk (by rw [h]; decide)
  have h8 : l ≠ "unfavorable" := fun h => hk (by rw [h]; decide)
  have h9 : l ≠ "neutral" := fun h => hk (by rw [h]; decide)
  have h10 : l ≠ "neither" := fun h => hk (by rw [h]; decide)
  have h11 : l ≠ "mixed" := fun h => hk (by rw [h]; decide)
  have h12 : l ≠ "balanced" := fun h => hk (by rw [h]; decide)
  simp only [sentimentFromLower, if_neg h1, if_neg h2, if_neg h3, if_neg h4,
    if_neg h5, if_neg h6, if_neg h7, if_neg h8, if_neg h9, if_neg h10,
    if_neg h11, if_neg h12, hp, hn, hu, Bool.false_eq_true, if_false]

theorem cleanSentiment_mem (s : Option String) : cleanSentiment s ∈ allSentiments := by
  cases s with
  | none => decide
  | some v =>
    by_cases hv : v = ""
    · subst hv; decide
    · simp only [cleanSentiment, if_neg hv]
      exact sentimentFromLower_mem (pyLower v)

/-- Sanity check justifying the first-match reverse index: no subcategory
string is listed under two different categories, so dict overwrite order in
`_SUBCATEGORY_TO_CATEGORY` is immaterial. -/
theorem subcategory_categories_disjoint :
    allCategories.Pairwise
      (fun c1 c2 => ∀ s ∈ validSubcategories c1, s ∉ validSubcategories c2) := by decide

/-! ## Pass-through lemmas for already-valid labels -/

theorem fixCategoryStep_of_valid {f : LabelDict} {c : String}
    (hc : f.category? = some c) (hcm : c ∈ allCategories) :
    fixCategoryStep f = f := by
  simp only [fixCategoryStep, hc, Option.getD_some]
  rw [if_pos hcm]

theorem fixSubcategoryStep_of_valid {pick : List String → String} {f : LabelDict}
    {c s : String} (hc : f.category? = some c) (hs : f.subcategory? = some s)
    (hsm : s ∈ validSubcategories c) :
    fixSubcategoryStep pick f = f := by
  simp only [fixSubcategoryStep, hs, hc, Option.getD_some, isValidSubcategoryForCategory]
  rw [if_pos (by simpa using hsm)]

/-- Already-valid labels pass through with only the sentiment rewritten. -/
theorem validateAndFixLabel_of_valid {pick : List String → String} {label : LabelDict}
    {c s : String} (hc : label.category? = some c) (hcm : c ∈ allCategories)
    (hs : label.subcategory? = some s) (hsm : s ∈ validSubcategories c) :
    validateAndFixLabel pick label =
      { label with sentiment? := some (cleanSentiment label.sentiment?) } := by
  unfold validateAndFixLabel
  cases hsent : label.sentiment? with
  | some v =>
    simp only [hsent, hc]
    rw [fixCategoryStep_of_valid (by simpa using hc) hcm,
      fixSubcategoryStep_of_valid (by simpa using hc) (by simpa using hs) hsm]
  | none =>
    simp only [hsent, hc]
    rw [fixCategoryStep_of_valid (by simpa using hc) hcm,
      fixSubcategoryStep_of_valid (by simpa using hc) (by simpa using hs) hsm]
    simp [cleanSentiment]

/-! ## Claim theorems: validation service -/

/-- C2: for every input label dictionary — whatever combination of present,
absent or invalid `category`/`subcategory`/`sentiment` fields — the label
returned by `validate_and_fix_label` has a category among the six valid
categories and a subcategory in `get_valid_subcategories()[category]` of the
returned label; the operation is total (it never rejects its input). -/
theorem validate_and_fix_label_always_conforms {pick : List String → String}
    (hpick : PickSound pick) (label : LabelDict) :
    labelConforms (validateAndFixLabel pick label) = true :=
  validateAndFixLabel_conforms hpick label

theorem validate_and_fix_label_always_conforms_witness :
    labelConforms (validateAndFixLabel pickHead
      { category? := some "Positive", subcategory? := some "no such subcategory",
        sentiment? := none }) = true :=
  validate_and_fix_label_always_conforms pickHead_sound _

/-- C6: on a label whose category is valid and whose subcategory is valid for
that category, `validate_and_fix_label` is the identity except that the
sentiment field is normalized (`clean_sentiment` of the stored value, or
`"Neutral"` when the key is absent). -/
theorem validate_and_fix_label_id_on_valid {pick : List String → String}
    {label : LabelDict} {c s : String}
    (hc : label.category? = some c) (hcm : c ∈ allCategories)
    (hs : label.subcategory? = some s) (hsm : s ∈ validSubcategories c) :
    validateAndFixLabel pick label =
      { label with sentiment? := some (cleanSentiment label.sentiment?) } :=
  validateAndFixLabel_of_valid hc hcm hs hsm

theorem validate_and_fix_label_id_on_valid_witness :
    validateAndFixLabel pickHead
      { category? := some "Product & Services", subcategory? := some "Progress Pace",
        sentiment? := some "negative" } =
      { category? := some "Product & Services", subcategory? := some "Progress Pace",
        sentiment? := some "Negative" } := by
  rw [@validate_and_fix_label_id_on_valid pickHead
    { category? := some "Product & Services", subcategory? := some "Progress Pace",
      sentiment? := some "negative" } "Product & Services" "Progress Pace"
    rfl (by decide) rfl (by decide)]
  decide

/-- C5 (code behaviour at the failing input): a label with an unrecognized
category and subcategory `"Communication Method"` is NOT moved to category
`"Communication"`; step 3 of `validate_and_fix_label` treats the bad category
itself as a would-be subcategory, finds no parent for it, and overwrites the
label to `Miscellaneous`/`Other`, discarding the subcategory.  The repo's own
`test_validate_review_labels` expects `Communication`/`Communication Method`
here.  The second conjunct shows the other fixup named by the spec is not
pinned either: `Product & Services` + `Fee Collection` is rewritten to
`next(iter(...))` of the sentiment's subcategory set — under the
source-order choice `pickHead` that is `"Unsettled Debt"`, not
`"Progress Pace"`. -/
theorem validate_and_fix_label_fixups_absent (pick : List String → String) :
    (validateAndFixLabel pick
      { category? := some "Invalid Category", subcategory? := some "Communication Method",
        sentiment? := some "Positive" } =
      { category? := some "Miscellaneous", subcategory? := some "Other",
        sentiment? := some "Positive" }) ∧
    (validateAndFixLabel pickHead
      { category? := some "Product & Services", subcategory? := some "Fee Collection",
        sentiment? := some "Negative" } =
      { category? := some "Product & Services", subcategory? := some "Unsettled Debt",
        sentiment? := some "Negative" }) :=
  ⟨rfl, rfl⟩

/-- C4 (counterexample): the substring fallbacks are tried in the order
positive, negative, neutral, so a string containing `"negative"` need not map
to `"Negative"`: `"positive negative"` contains `"negative"` yet cleans to
`"Positive"`. -/
theorem clean_sentiment_negative_counterexample :
    pyIn "negative" "positive negative" = true ∧
    cleanSentiment (some "positive negative") = "Positive" ∧
    ("Positive" : String) ≠ "Negative" := by decide

/-- C4 (amended): `clean_sentiment` maps any string containing `"positive"`
(after lower-casing) to `"Positive"`; any string containing `"negative"` but
not `"positive"` to `"Negative"`; any string containing `"neutral"` but
neither `"positive"` nor `"negative"` to `"Neutral"`; an absent, empty, or
unrecognized input (lower-cased value not one of the twelve synonym keys and
containing none of the three substrings) to `"Neutral"`; and its result is
always one of the three sentiment values. -/
theorem clean_sentiment_amended :
    (∀ s : String, pyIn "positive" (pyLower s) = true →
      cleanSentiment (some s) = "Positive") ∧
    (∀ s : String, pyIn "negative" (pyLower s) = true →
      pyIn "positive" (pyLower s) = false →
      cleanSentiment (some s) = "Negative") ∧
    (∀ s : String, pyIn "neutral" (pyLower s) = true →
      pyIn "positive" (pyLower s) = false → pyIn "negative" (pyLower s) = false →
      cleanSentiment (some s) = "Neutral") ∧
    cleanSentiment none = "Neutral" ∧ cleanSentiment (some "") = "Neutral" ∧
    (∀ s : String, pyLower s ∉ sentimentSynonymKeys →
      pyIn "positive" (pyLower s) = false → pyIn "negative" (pyLower s) = false →
      pyIn "neutral" (pyLower s) = false →
      cleanSentiment (some s) = "Neutral") ∧
    (∀ s : Option String, cleanSentiment s ∈ allSentiments) := by
  refine ⟨?_, ?_, ?_, rfl, rfl, ?_, cleanSentiment_mem⟩
  · intro s h
    by_cases hs : s = ""
    · subst hs; exact absurd h (by decide)
    · simp only [cleanSentiment, if_neg hs]
      exact sentimentFromLower_positive _ h
  · intro s h hp
    by_cases hs : s = ""
    · subst hs; exact absurd h (by decide)
    · simp only [cleanSentiment, if_neg hs]
      exact sentimentFromLower_negative _ h hp
  · intro s h hp hn
    by_cases hs : s = ""
    · subst hs; exact absurd h (by decide)
    · simp only [cleanSentiment, if_neg hs]
      exact sentimentFromLower_neutral _ h hp hn
  · intro s hk hp hn hu
    by_cases hs : s = ""
    · subst hs; rfl
    · simp only [cleanSentiment, if_neg hs]
      exact sentimentFromLower_unrecognized _ hk hp hn hu

theorem clean_sentiment_amended_witness :
    cleanSentiment (some "Very positive") = "Positive" ∧
    cleanSentiment (some "somewhat negative") = "Negative" ∧
    cleanSentiment (some "kind of neutral") = "Neutral" ∧
    cleanSentiment (some "xyz123") = "Neutral" :=
  ⟨clean_sentiment_amended.1 "Very positive" (by decide),
   clean_sentiment_amended.2.1 "somewhat negative" (by decide) (by decide),
   clean_sentiment_amended.2.2.1 "kind of neutral" (by decide) (by decide) (by decide),
   clean_sentiment_amended.2.2.2.2.2.1 "xyz123" (by decide) (by decide) (by decide)
     (by decide)⟩

/-! ## services/gemini_service.py — _clean_results

A review is a dict with keys `review_id`, `text`, `labels` and (on processor
placeholders) `processing_error`; the structure returned by the parse paths
is a dict that may or may not carry a `reviews` key. -/

structure ReviewDict where
  review_id? : Option String
  text? : Option String
  labels? : Option (List LabelDict)
  processing_error? : Option String := none
  deriving DecidableEq, Repr

structure ResultsDict where
  reviews? : Option (List ReviewDict)
  deriving DecidableEq, Repr

/-- `GeminiService._ensure_at_least_one_label`: `if not review.get("labels")`
is true when the key is absent or the list is empty; the injected placeholder
label has only `category` and `subcategory` keys (no sentiment — the
validation pass adds it).  The source also binds `review.get("text", "")` to
a local that it never uses. -/
def ensureAtLeastOneLabel (review : ReviewDict) : ReviewDict :=
  match review.labels? with
  | some (_ :: _) => review
  | _ =>
    { review with
      labels? := some ([{ category? := some "Miscellaneous", subcategory? := some "Other",
                          sentiment? := none }]) }

/-- `GeminiService._clean_results`: when a `reviews` key is present, each
review first gets at least one label, then every label is passed through
`validate_and_fix_label`; a structure without a `reviews` key is returned
unchanged. -/
def cleanResults (pick : List String → String) (results : ResultsDict) : ResultsDict :=
  match results.reviews? with
  | some reviews =>
    { results with reviews? := some (reviews.map (fun r =>
        let r1 := ensureAtLeastOneLabel r
        { r1 with
          labels? := some ((r1.labels?.getD []).map (validateAndFixLabel pick)) })) }
  | none => results

theorem ensureAtLeastOneLabel_nonempty (r : ReviewDict) :
    ∃ l0 ls0, (ensureAtLeastOneLabel r).labels? = some (l0 :: ls0) := by
  match h : r.labels? with
  | some (l :: ls) => exact ⟨l, ls, by simp [ensureAtLeastOneLabel, h]⟩
  | some [] =>
    refine ⟨{ category? := some "Miscellaneous", subcategory? := some "Other",
              sentiment? := none }, [], ?_⟩
    simp [ensureAtLeastOneLabel, h]
  | none =>
    refine ⟨{ category? := some "Miscellaneous", subcategory? := some "Other",
              sentiment? := none }, [], ?_⟩
    simp [ensureAtLeastOneLabel, h]

/-- C3: after `_clean_results`, every review in the returned structure
carries at least one label (a `Miscellaneous`/`Other` placeholder is injected
when the list was empty or absent), and every surfaced label has been passed
through `validate_and_fix_label`, hence is taxonomy-valid.  The input
`results` is arbitrary, so this holds regardless of which parse path
(strict or fallback) produced it. -/
theorem clean_results_invariant {pick : List String → String}
    (hpick : PickSound pick) (results : ResultsDict) :
    ∀ r ∈ (cleanResults pick results).reviews?.getD [],
      ∃ ls, r.labels? = some ls ∧ ls ≠ [] ∧
        ∀ l ∈ ls, labelConforms l = true := by
  cases hres : results.reviews? with
  | none =>
    simp [cleanResults, hres]
  | some reviews =>
    simp only [cleanResults, hres, Option.getD_some]
    intro r hr
    rw [List.mem_map] at hr
    obtain ⟨r0, hr0, hmap⟩ := hr
    obtain ⟨l0, ls0, hlab⟩ := ensureAtLeastOneLabel_nonempty r0
    refine ⟨((ensureAtLeastOneLabel r0).labels?.getD []).map (validateAndFixLabel pick),
      ?_, ?_, ?_⟩
    · rw [← hmap]
    · rw [hlab]; simp
    · intro l hl
      rw [List.mem_map] at hl
      obtain ⟨l1, hl1, hfix⟩ := hl
      rw [← hfix]
      exact validateAndFixLabel_conforms hpick l1

theorem clean_results_invariant_witness :
    ∃ ls, ({ review_id? := some "1000", text? := some "slow process",
             labels? := some ([{ category? := some "Miscellaneous",
                                 subcategory? := some "Other",
                                 sentiment? := some "Neutral" }]) } : ReviewDict).labels?
        = some ls ∧ ls ≠ [] ∧ ∀ l ∈ ls, labelConforms l = true :=
  clean_results_invariant pickHead_sound
    { reviews? := some ([{ review_id? := some "1000", text? := some "slow process",
                           labels? := none }]) }
    { review_id? := some "1000", text? := some "slow process",
      labels? := some ([{ category? := some "Miscellaneous",
                          subcategory? := some "Other",
                          sentiment? := some "Neutral" }]) }
    (by decide)

/-! ## utils/result.py and services/processor.py

`Result[T]` is `Success(value)` / `Error(message)`.  The LLM service
(`llm_service.py` contract) is a function from a batch of texts to a
`Result` whose success value is a dict that may carry a `reviews` key —
exactly what `process_reviews` inspects (`"reviews" in result.value`). -/

inductive PyResult (α : Type) where
  | success (value : α)
  | error (msg : String)
  deriving DecidableEq, Repr

/-- The LLM backend as seen by `ReviewProcessor` (`analyze_reviews`). -/
def LLMService : Type := List String → PyResult ResultsDict

/-- `review_ids = [f"{1000 + i}" for i in range(len(review_texts))]`. -/
def genIds (n : Nat) : List String :=
  (List.range n).map (fun i => toString (1000 + i))

/-- The id-reassignment loop (`for i, review in enumerate(...): if i <
len(review_ids): review["review_id"] = review_ids[i]`): positions beyond the
id list keep their original id; reviews beyond are kept as returned. -/
def assignIds : List ReviewDict → List String → List ReviewDict
  | [], _ => []
  | r :: rs, [] => r :: assignIds rs []
  | r :: rs, i :: rest => { r with review_id? := some i } :: assignIds rs rest

/-- `f"Error processing batch {batch_number}: {batch_result.error}"`. -/
def batchErrorMsg (batchNumber : Nat) (err : String) : String :=
  "Error processing batch " ++ toString batchNumber ++ ": " ++ err

/-- The placeholder entry appended for each text of a failed batch. -/
def placeholderReview (text reviewId err : String) : ReviewDict :=
  { review_id? := some reviewId, text? := some text,
    labels? := some ([{ category? := some "Miscellaneous", subcategory? := some "Other",
                        sentiment? := some "Neutral", error? := some "Processing failed" }]),
    processing_error? := some err }

/-- The loop of `ReviewProcessor._process_in_batches`: `for i in range(0,
len(review_texts), batch_size)` processed as a recursion over successive
chunks, carrying the 1-based `batch_number`.  A successful batch has its ids
reassigned and is spliced in (nothing is added when the success dict lacks a
`reviews` key); a failed batch contributes one placeholder per `(text, id)`
pair.  Python's slice stepping requires `batch_size ≥ 1` (a step of 0 raises
`ValueError` before the loop body runs), so the `t :: ts.take (bs - 1)`
chunk decomposition coincides with `texts[i:i+batch_size]` whenever the
function is reachable. -/
def processBatchesGo (llm : LLMService) (bs : Nat) :
    Nat → List String → List String → List ReviewDict
  | _, [], _ => []
  | bn, t :: ts, ids =>
    let batchTexts := t :: ts.take (bs - 1)
    let batchIds := ids.take bs
    let chunk :=
      match llm batchTexts with
      | .success payload =>
        match payload.reviews? with
        | some rs => assignIds rs batchIds
        | none => []
      | .error e =>
        (batchTexts.zip batchIds).map
          (fun p => placeholderReview p.1 p.2 (batchErrorMsg bn e))
    chunk ++ processBatchesGo llm bs (bn + 1) (ts.drop (bs - 1)) (ids.drop bs)
  termination_by _ ts _ => ts.length
  decreasing_by
    simp only [List.length_drop, List.length_cons]
    omega

/-- `ReviewProcessor._process_in_batches`: runs the chunk loop starting at
batch number 1 and always returns `Success({"reviews": [...]})`. -/
def processInBatches (llm : LLMService) (bs : Nat)
    (texts ids : List String) : PyResult ResultsDict :=
  .success { reviews? := some (processBatchesGo llm bs 1 texts ids) }

/-- The shared tail of `ReviewProcessor.process_reviews` once the effective
id list is known: small inputs go to the LLM directly (ids reassigned on a
success carrying a `reviews` key), larger ones through
`_process_in_batches`. -/
def processReviewsWithIds (llm : LLMService) (bs : Nat)
    (texts ids : List String) : PyResult ResultsDict :=
  if texts.length ≤ bs then
    match llm texts with
    | .success payload =>
      match payload.reviews? with
      | some rs => .success { reviews? := some (assignIds rs ids) }
      | none => .success payload
    | .error e => .error e
  else
    processInBatches llm bs texts ids

/-- `ReviewProcessor.process_reviews(review_texts, review_ids)`. -/
def processReviews (llm : LLMService) (bs : Nat)
    (texts : List String) (ids? : Option (List String)) : PyResult ResultsDict :=
  if texts = [] then .error "No reviews provided for analysis"
  else
    match ids? with
    | some ids =>
      if ids.length ≠ texts.length then
        .error "Number of review IDs must match number of review texts"
      else processReviewsWithIds llm bs texts ids
    | none => processReviewsWithIds llm bs texts (genIds texts.length)

/-- The id list actually used: caller-supplied, or sequential from `"1000"`. -/
def effectiveIds (texts : List String) : Option (List String) → List String
  | some ids => ids
  | none => genIds texts.length

/-- The hypothesis the claim places on successful LLM calls: a success dict
carries a `reviews` key with exactly one review per input text (the Gemini
adapter's contract). -/
def LLMOneToOne (llm : LLMService) : Prop :=
  ∀ ts payload, llm ts = .success payload →
    ∃ rs, payload.reviews? = some rs ∧ rs.length = ts.length

/-! ## Processor lemmas -/

theorem assignIds_length (rs : List ReviewDict) (ids : List String) :
    (assignIds rs ids).length = rs.length := by
  induction rs generalizing ids with
  | nil => simp [assignIds]
  | cons r rs ih =>
    cases ids with
    | nil => simp [assignIds, ih]
    | cons i rest => simp [assignIds, ih]

theorem assignIds_getElem (rs : List ReviewDict) (ids : List String) (k : Nat)
    (hk : k < rs.length) (hkid : k < ids.length) :
    ∃ r, (assignIds rs ids)[k]? = some r ∧ r.review_id? = ids[k]? := by
  induction rs generalizing ids k with
  | nil => simp at hk
  | cons r rs ih =>
    cases ids with
    | nil => simp at hkid
    | cons i rest =>
      cases k with
      | zero =>
        refine ⟨{ r with review_id? := some i }, ?_, ?_⟩ <;> simp [assignIds]
      | succ k =>
        simp only [List.length_cons, Nat.succ_lt_succ_iff] at hk hkid
        obtain ⟨r0, hr0, hid⟩ := ih rest k hk hkid
        exact ⟨r0, by simpa [assignIds] using hr0, by simpa using hid⟩

theorem zip_getElem {α β : Type} (as : List α) (bs : List β) (k : Nat)
    {a : α} {b : β} (ha : as[k]? = some a) (hb : bs[k]? = some b) :
    (as.zip bs)[k]? = some (a, b) := by
  induction as generalizing bs k with
  | nil => simp at ha
  | cons x xs ih =>
    cases bs with
    | nil => simp at hb
    | cons y ys =>
      cases k with
      | zero => simp_all
      | succ k =>
        simp only [List.getElem?_cons_succ] at ha hb
        simpa [List.zip_cons_cons] using ih ys k ha hb

theorem getElem_append_left {α : Type} {l1 l2 : List α} {i : Nat}
    (h : i < l1.length) : (l1 ++ l2)[i]? = l1[i]? := by
  rw [List.getElem?_append]
  exact if_pos h

theorem getElem_take_lt {α : Type} {l : List α} {n i : Nat} (h : i < n) :
    (l.take n)[i]? = l[i]? := by
  rw [List.getElem?_take]
  exact if_pos h

/-- For `bs ≥ 1`, the head chunk is the Python slice `texts[0:bs]`. -/
theorem take_cons_chunk {α : Type} (t : α) (ts : List α) {bs : Nat} (hbs : 0 < bs) :
    t :: ts.take (bs - 1) = (t :: ts).take bs := by
  cases bs with
  | zero => omega
  | succ b => simp [List.take_succ_cons]

/-- For `bs ≥ 1`, the tail after the head chunk is the Python slice
`texts[bs:]`. -/
theorem drop_cons_chunk {α : Type} (t : α) (ts : List α) {bs : Nat} (hbs : 0 < bs) :
    ts.drop (bs - 1) = (t :: ts).drop bs := by
  cases bs with
  | zero => omega
  | succ b => simp [List.drop_succ_cons]

/-- Every chunk (successful or failed) contributes exactly its own number of
texts, so the loop yields one review per input text. -/
theorem processBatchesGo_length {llm : LLMService} {bs : Nat} (hbs : 0 < bs)
    (hllm : LLMOneToOne llm) :
    ∀ N ts ids bn, ts.length ≤ N → ids.length = ts.length →
      (processBatchesGo llm bs bn ts ids).length = ts.length := by
  intro N
  induction N with
  | zero =>
    intro ts ids bn hN _
    rw [Nat.le_zero, List.length_eq_zero] at hN
    subst hN
    simp [processBatchesGo]
  | succ N ih =>
    intro ts ids bn hN hlen
    cases ts with
    | nil => simp [processBatchesGo]
    | cons t ts =>
      simp only [List.length_cons] at hlen
      simp only [List.length_cons] at hN
      have hrec := ih (ts.drop (bs - 1)) (ids.drop bs) (bn + 1)
        (by simp only [List.length_drop]; omega)
        (by simp only [List.length_drop]; omega)
      simp only [processBatchesGo, List.length_append, hrec, List.length_drop,
        List.length_cons]
      cases hl : llm (t :: ts.take (bs - 1)) with
      | success payload =>
        obtain ⟨rs, hrs, hlenrs⟩ := hllm _ _ hl
        simp only [hrs, assignIds_length]
        simp only [List.length_cons, List.length_take] at hlenrs
        omega
      | error e =>
        simp only [List.length_map, List.length_zip, List.length_cons,
          List.length_take]
        omega

/-- Output reviews carry the caller-supplied ids positionally, whether their
chunk succeeded (ids reassigned) or failed (placeholder built with the id). -/
theorem processBatchesGo_ids {llm : LLMService} {bs : Nat} (hbs : 0 < bs)
    (hllm : LLMOneToOne llm) :
    ∀ N ts ids bn, ts.length ≤ N → ids.length = ts.length →
      ∀ k, k < ts.length →
        ∃ r, (processBatchesGo llm bs bn ts ids)[k]? = some r ∧
          r.review_id? = ids[k]? := by
  intro N
  induction N with
  | zero =>
    intro ts ids bn hN _ k hk
    omega
  | succ N ih =>
    intro ts ids bn hN hlen k hk
    cases ts with
    | nil => simp at hk
    | cons t ts =>
      simp only [List.length_cons] at hlen hN hk
      simp only [processBatchesGo]
      cases hl : llm (t :: ts.take (bs - 1)) with
      | success payload =>
        obtain ⟨rs, hrs, hlenrs⟩ := hllm _ _ hl
        simp only [hrs]
        simp only [List.length_cons, List.length_take] at hlenrs
        by_cases hkc : k < rs.length
        · rw [getElem_append_left (by rw [assignIds_length]; exact hkc)]
          obtain ⟨r, hr, hid⟩ := assignIds_getElem rs (ids.take bs) k hkc
            (by simp only [List.length_take]; omega)
          refine ⟨r, hr, ?_⟩
          rw [hid, getElem_take_lt (show k < bs by omega)]
        · have hrsbs : rs.length = bs := by omega
          rw [List.getElem?_append_right (by rw [assignIds_length]; omega)]
          rw [assignIds_length, hrsbs]
          obtain ⟨r, hr, hid⟩ := ih (ts.drop (bs - 1)) (ids.drop bs) (bn + 1)
            (by simp only [List.length_drop]; omega)
            (by simp only [List.length_drop]; omega)
            (k - bs) (by simp only [List.length_drop]; omega)
          refine ⟨r, hr, ?_⟩
          rw [hid, List.getElem?_drop]
          congr 1
          omega
      | error e =>
        by_cases hkc : k < bs
        · have htk : (t :: ts.take (bs - 1))[k]? = (t :: ts)[k]? := by
            rw [take_cons_chunk t ts hbs, getElem_take_lt hkc]
          have hik : (ids.take bs)[k]? = ids[k]? := getElem_take_lt hkc
          have htv : ∃ tv, (t :: ts)[k]? = some tv := by
            have : k < (t :: ts).length := by simp; omega
            exact ⟨(t :: ts).get ⟨k, this⟩, List.getElem?_eq_getElem this⟩
          have hiv : ∃ iv, ids[k]? = some iv := by
            have : k < ids.length := by omega
            exact ⟨ids.get ⟨k, this⟩, List.getElem?_eq_getElem this⟩
          obtain ⟨tv, htv⟩ := htv
          obtain ⟨iv, hiv⟩ := hiv
          have hzip := zip_getElem (t :: ts.take (bs - 1)) (ids.take bs) k
            (by rw [htk]; exact htv) (by rw [hik]; exact hiv)
          rw [getElem_append_left (by
            simp only [List.length_map, List.length_zip, List.length_cons,
              List.length_take]
            omega)]
          rw [List.getElem?_map, hzip]
          exact ⟨_, rfl, by simp [placeholderReview, hiv]⟩
        · have hclen :
              (((t :: ts.take (bs - 1)).zip (ids.take bs)).map
                (fun p => placeholderReview p.1 p.2 (batchErrorMsg bn e))).length = bs := by
            simp only [List.length_map, List.length_zip, List.length_cons,
              List.length_take]
            omega
          rw [List.getElem?_append_right (by rw [hclen]; omega), hclen]
          obtain ⟨r, hr, hid⟩ := ih (ts.drop (bs - 1)) (ids.drop bs) (bn + 1)
            (by simp only [List.length_drop]; omega)
            (by simp only [List.length_drop]; omega)
            (k - bs) (by simp only [List.length_drop]; omega)
          refine ⟨r, hr, ?_⟩
          rw [hid, List.getElem?_drop]
          congr 1
          omega

/-- Each text of a failed chunk yields exactly the documented placeholder:
the input text, the positional id, the single
`{Miscellaneous, Other, Neutral}` label with the error marker, and a
`processing_error` naming the 1-based batch number and the chunk error. -/
theorem processBatchesGo_failedChunk {llm : LLMService} {bs : Nat} (hbs : 0 < bs)
    (hllm : LLMOneToOne llm) :
    ∀ N ts ids bn, ts.length ≤ N → ids.length = ts.length →
      ∀ q rr e, rr < bs → bs * q + rr < ts.length →
        llm ((ts.drop (bs * q)).take bs) = .error e →
        ∀ tv iv, ts[bs * q + rr]? = some tv → ids[bs * q + rr]? = some iv →
          (processBatchesGo llm bs bn ts ids)[bs * q + rr]? =
            some (placeholderReview tv iv (batchErrorMsg (bn + q) e)) := by
  intro N
  induction N with
  | zero =>
    intro ts ids bn hN _ q rr e _ hlt _ _ _ _ _
    omega
  | succ N ih =>
    intro ts ids bn hN hlen q rr e hrr hlt hchunk tv iv htv hiv
    cases ts with
    | nil => simp at hlt
    | cons t ts =>
      simp only [List.length_cons] at hlen hN hlt
      simp only [processBatchesGo]
      cases q with
      | zero =>
        simp only [Nat.mul_zero, Nat.zero_add] at hlt hchunk htv hiv ⊢
        rw [List.drop_zero, ← take_cons_chunk t ts hbs] at hchunk
        rw [hchunk]
        have hzip := zip_getElem (t :: ts.take (bs - 1)) (ids.take bs) rr
          (by rw [take_cons_chunk t ts hbs, getElem_take_lt hrr]; exact htv)
          (by rw [getElem_take_lt hrr]; exact hiv)
        rw [getElem_append_left (by
          simp only [List.length_map, List.length_zip, List.length_cons,
            List.length_take]
          omega)]
        rw [List.getElem?_map, hzip, Nat.add_zero]
        rfl
      | succ q =>
        have hmul : bs * (q + 1) = bs * q + bs := by ring
        have hk : bs ≤ bs * (q + 1) + rr := by omega
        have hrest :
            (processBatchesGo llm bs (bn + 1) (ts.drop (bs - 1)) (ids.drop bs))[bs * q + rr]? =
              some (placeholderReview tv iv (batchErrorMsg (bn + 1 + q) e)) := by
          apply ih (ts.drop (bs - 1)) (ids.drop bs) (bn + 1)
            (by simp only [List.length_drop]; omega)
            (by simp only [List.length_drop]; omega)
            q rr e hrr
            (by simp only [List.length_drop]; omega)
          · rw [drop_cons_chunk t ts hbs, List.drop_drop]
            first
              | rw [show bs * q + bs = bs * (q + 1) from by ring]
              | rw [show bs + bs * q = bs * (q + 1) from by ring]
            exact hchunk
          · rw [drop_cons_chunk t ts hbs, List.getElem?_drop]
            rw [show bs + (bs * q + rr) = bs * (q + 1) + rr from by ring]
            exact htv
          · rw [List.getElem?_drop]
            rw [show bs + (bs * q + rr) = bs * (q + 1) + rr from by ring]
            exact hiv
        cases hl : llm (t :: ts.take (bs - 1)) with
        | success payload =>
          obtain ⟨rs, hrs, hlenrs⟩ := hllm _ _ hl
          simp only [hrs]
          simp only [List.length_cons, List.length_take] at hlenrs
          have hrsbs : rs.length = bs := by omega
          rw [List.getElem?_append_right (by rw [assignIds_length]; omega)]
          rw [assignIds_length, hrsbs]
          have harg : bs * (q + 1) + rr - bs = bs * q + rr := by
            have : bs * (q + 1) = bs * q + bs := by ring
            omega
          rw [harg]
          rw [show bn + 1 + q = bn + (q + 1) from by omega] at hrest
          exact hrest
        | error e0 =>
          have hclen :
              (((t :: ts.take (bs - 1)).zip (ids.take bs)).map
                (fun p => placeholderReview p.1 p.2 (batchErrorMsg bn e0))).length = bs := by
            simp only [List.length_map, List.length_zip, List.length_cons,
              List.length_take]
            omega
          rw [List.getElem?_append_right (by rw [hclen]; omega), hclen]
          have harg : bs * (q + 1) + rr - bs = bs * q + rr := by
            have : bs * (q + 1) = bs * q + bs := by ring
            omega
          rw [harg]
          rw [show bn + 1 + q = bn + (q + 1) from by omega] at hrest
          exact hrest

theorem genIds_length (n : Nat) : (genIds n).length = n := by simp [genIds]

/-- C1: on a non-empty input longer than the configured batch size (ids
omitted or of matching length), `process_reviews` returns `Success` with
exactly one output review per input text; ids are assigned positionally
(caller-supplied or sequential from `"1000"`); every text of a chunk whose
LLM call returned `Error` yields the placeholder review carrying the single
`{Miscellaneous, Other, Neutral}` label with the error marker and a
`processing_error` holding the chunk's error message; and the overall result
is `Success` even when every chunk failed (the conclusion never requires any
chunk to succeed).  Successful LLM calls are assumed to return one review
per text (`LLMOneToOne`), which is what the Gemini adapter produces. -/
theorem process_reviews_batched (llm : LLMService) (bs : Nat)
    (texts : List String) (ids? : Option (List String))
    (hbs : 0 < bs) (hgt : bs < texts.length)
    (hids : ∀ ids, ids? = some ids → ids.length = texts.length)
    (hllm : LLMOneToOne llm) :
    ∃ out, processReviews llm bs texts ids? = .success { reviews? := some out } ∧
      out.length = texts.length ∧
      (∀ k, k < texts.length →
        ∃ r, out[k]? = some r ∧ r.review_id? = (effectiveIds texts ids?)[k]?) ∧
      (∀ q rr e, rr < bs → bs * q + rr < texts.length →
        llm ((texts.drop (bs * q)).take bs) = .error e →
        ∀ tv iv, texts[bs * q + rr]? = some tv →
          (effectiveIds texts ids?)[bs * q + rr]? = some iv →
          out[bs * q + rr]? =
            some (placeholderReview tv iv (batchErrorMsg (q + 1) e))) := by
  have hne : texts ≠ [] := by
    intro h
    subst h
    simp at hgt
  have hefflen : (effectiveIds texts ids?).length = texts.length := by
    cases hid : ids? with
    | none => simp [effectiveIds, genIds_length]
    | some ids => simpa [effectiveIds] using hids ids hid
  refine ⟨processBatchesGo llm bs 1 texts (effectiveIds texts ids?), ?_, ?_, ?_, ?_⟩
  · cases hid : ids? with
    | some ids =>
      have hl := hids ids hid
      have hnb : ¬(texts.length ≤ bs) := by omega
      simp [processReviews, processReviewsWithIds, processInBatches, effectiveIds,
        hne, hl, hnb]
    | none =>
      have hnb : ¬(texts.length ≤ bs) := by omega
      simp [processReviews, processReviewsWithIds, processInBatches, effectiveIds,
        hne, hnb]
  · exact processBatchesGo_length hbs hllm texts.length texts _ 1 le_rfl hefflen
  · intro k hk
    exact processBatchesGo_ids hbs hllm texts.length texts _ 1 le_rfl hefflen k hk
  · intro q rr e hrr hlt hchunk tv iv htv hiv
    have hres := processBatchesGo_failedChunk hbs hllm texts.length texts _ 1
      le_rfl hefflen q rr e hrr hlt hchunk tv iv htv hiv
    rw [show 1 + q = q + 1 from by omega] at hres
    exact hres

/-- An LLM backend that fails on every call, used to instantiate the
batching theorem concretely (every chunk fails, result still `Success`). -/
def llmAlwaysDown : LLMService := fun _ => .error "llm down"

theorem process_reviews_batched_witness :
    ∃ out, processReviews llmAlwaysDown 2 ["a", "b", "c"] none =
        .success { reviews? := some out } ∧
      out.length = (["a", "b", "c"] : List String).length ∧
      (∀ k, k < (["a", "b", "c"] : List String).length →
        ∃ r, out[k]? = some r ∧
          r.review_id? = (effectiveIds ["a", "b", "c"] none)[k]?) ∧
      (∀ q rr e, rr < 2 → 2 * q + rr < (["a", "b", "c"] : List String).length →
        llmAlwaysDown (((["a", "b", "c"] : List String).drop (2 * q)).take 2) = .error e →
        ∀ tv iv, (["a", "b", "c"] : List String)[2 * q + rr]? = some tv →
          (effectiveIds ["a", "b", "c"] none)[2 * q + rr]? = some iv →
          out[2 * q + rr]? =
            some (placeholderReview tv iv (batchErrorMsg (q + 1) e))) :=
  process_reviews_batched llmAlwaysDown 2 ["a", "b", "c"] none (by decide) (by decide)
    (fun ids h => by simp at h) (fun ts p h => by simp [llmAlwaysDown] at h)

/-! ## services/freshdesk_service.py -/

/-- Python exception outcomes relevant to the embedded code paths. -/
inductive PyExc where
  | attributeError
  | keyError
  deriving DecidableEq, Repr

/-- Modelled from the spec: the `FreshdeskSettings` class is imported from
`config.settings`, which does not define it in the sources.  Spec §4.9: it
holds api key, domain, webhook secret and max tag length (default 32);
`is_configured` is true only when both API key and domain are present. -/
structure FreshdeskSettingsSpec where
  api_key : Option String
  domain : Option String
  webhook_secret : Option String
  max_tag_len : Nat
  deriving DecidableEq, Repr

def FreshdeskSettingsSpec.isConfigured (c : FreshdeskSettingsSpec) : Bool :=
  c.api_key.isSome && c.domain.isSome

def stripPrefixStr (p s : String) : String :=
  if p.isPrefixOf s then s.drop p.length else s

def stripSuffixStr (suf s : String) : String :=
  if suf.data.isSuffixOf s.data then s.dropRight suf.length else s

/-- Modelled from the spec: `sanitised_domain` strips a protocol prefix and
the `.freshdesk.com` suffix from the configured domain (spec §4.9). -/
def FreshdeskSettingsSpec.sanitisedDomain (c : FreshdeskSettingsSpec) : String :=
  stripSuffixStr ".freshdesk.com" (stripPrefixStr "https://" (stripPrefixStr "http://" (c.domain.getD "")))

/-- The attribute state of a `FreshdeskService` object.  `settingsAttr`
stands for the `self.settings` attribute: no statement in the class ever
assigns it (`__init__` stores the injected config in `self.cfg`), so it is
absent (`none`) on every instance. -/
structure FreshdeskServiceObj where
  cfg : FreshdeskSettingsSpec
  active : Bool
  base_url? : Option String
  max_tag_len? : Option Nat
  settingsAttr : Option FreshdeskSettingsSpec
  deriving DecidableEq, Repr

/-- `FreshdeskService.__init__`: resolve the config (`cfg or
settings.freshdesk`), deactivate when not configured, otherwise derive the
base URL, auth and tag-length limit.  In neither branch is `self.settings`
assigned. -/
def freshdeskInit (cfg? : Option FreshdeskSettingsSpec)
    (globalFreshdesk : FreshdeskSettingsSpec) : FreshdeskServiceObj :=
  let cfg := cfg?.getD globalFreshdesk
  if cfg.isConfigured then
    { cfg := cfg, active := true,
      base_url? := some ("https://" ++ cfg.sanitisedDomain ++ ".freshdesk.com/api/v2"),
      max_tag_len? := some cfg.max_tag_len,
      settingsAttr := none }
  else
    { cfg := cfg, active := false, base_url? := none, max_tag_len? := none,
      settingsAttr := none }

def lookupHeader (headers : List (String × String)) (k : String) : Option String :=
  (headers.find? (fun p => decide (p.1 = k))).map (fun p => p.2)

/-- `hmac.compare_digest`: a timing-safe comparison whose value is equality. -/
def hmacCompareDigest (a b : String) : Bool := decide (a = b)

/-- `FreshdeskService.validate_webhook_signature(headers, body)`.  The HMAC
primitive (`hmac.new(secret, body, sha256).hexdigest()`) is an external
library function, taken as a parameter `hmacSha256Hex`; the body is a byte
string.  The method begins with `if not self.settings or not
self.settings.webhook_secret:`, and `self.settings` does not exist on the
object (see `FreshdeskServiceObj.settingsAttr`), so the attribute access
raises `AttributeError` — this happens before the `try` block, hence it
propagates. -/
def validateWebhookSignature (hmacSha256Hex : String → List Nat → String)
    (svc : FreshdeskServiceObj) (headers : List (String × String))
    (body : List Nat) : Except PyExc Bool :=
  match svc.settingsAttr with
  | none => .error .attributeError
  | some st =>
    if st.webhook_secret.isNone ∨ st.webhook_secret = some "" then .ok true
    else
      match lookupHeader headers "X-Freshdesk-Signature" with
      | none => .ok false
      | some sig =>
        .ok (hmacCompareDigest (hmacSha256Hex (st.webhook_secret.getD "") body) sig)

/-- C7 (code behaviour): on every service object produced by `__init__` —
whatever the configuration, headers, body or HMAC primitive —
`validate_webhook_signature` raises `AttributeError`, because `__init__`
stores the configuration in `self.cfg` while the method reads
`self.settings`, an attribute that is never assigned.  In particular it does
not return `True` when no webhook secret is configured, and it never
compares an HMAC digest. -/
theorem validate_webhook_signature_always_raises
    (hmacSha256Hex : String → List Nat → String)
    (cfg? : Option FreshdeskSettingsSpec) (globalFreshdesk : FreshdeskSettingsSpec)
    (headers : List (String × String)) (body : List Nat) :
    validateWebhookSignature hmacSha256Hex (freshdeskInit cfg? globalFreshdesk)
      headers body = .error .attributeError := by
  have hset : (freshdeskInit cfg? globalFreshdesk).settingsAttr = none := by
    cases hc : (cfg?.getD globalFreshdesk).isConfigured <;>
      simp [freshdeskInit, hc]
  unfold validateWebhookSignature
  rw [hset]

/-! ## api/routes.py — the POST /analyze handler -/

structure AspectOut where
  name : String
  sentiment : String
  confidence : Rat
  deriving DecidableEq, Repr

/-- The `ProcessedReview`-shaped dict built by the handler.  The
`processed_at` field (`datetime.now()`) is wall-clock time and is omitted
from the model; no claim mentions it. -/
structure ProcessedReviewOut where
  text : String
  sentiment : String
  score : Rat
  aspects : List AspectOut
  keywords : List String
  language : String
  deriving DecidableEq, Repr

/-- `label["sentiment"].lower()` normalized onto the three counting keys. -/
def normalizeSentimentKey (s : String) : String :=
  let ls := pyLower s
  if ls = "negative" then "negative"
  else if ls = "positive" then "positive"
  else "neutral"

/-- `sentiment_counts[normalized] = sentiment_counts.get(normalized, 0) + 1`
on an insertion-ordered dict. -/
def bumpCount : List (String × Nat) → String → List (String × Nat)
  | [], k => [(k, 1)]
  | (k0, n) :: rest, k =>
    if k0 = k then (k0, n + 1) :: rest else (k0, n) :: bumpCount rest k

def sentimentCounts (labels : List LabelDict) : List (String × Nat) :=
  labels.foldl
    (fun acc l =>
      match l.sentiment? with
      | some s => bumpCount acc (normalizeSentimentKey s)
      | none => acc) []

def maxByCountGo (bestK : String) (bestN : Nat) : List (String × Nat) → String
  | [] => bestK
  | (k, n) :: rest =>
    if n > bestN then maxByCountGo k n rest else maxByCountGo bestK bestN rest

/-- `max(sentiment_counts.items(), key=lambda x: x[1])[0]`: the first key of
maximal count in insertion order. -/
def maxByCount : List (String × Nat) → Option String
  | [] => none
  | (k, n) :: rest => some (maxByCountGo k n rest)

/-- The handler's overall-sentiment/score computation for one review:
defaults `("neutral", 0.5)`, refined from the label sentiments when the
labels list is present and non-empty and produces any counts. -/
def reviewSentimentScore (labels? : Option (List LabelDict)) : String × Rat :=
  match labels? with
  | some (l :: ls) =>
    match maxByCount (sentimentCounts (l :: ls)) with
    | some s =>
      (s, if s = "negative" then (0.2 : Rat)
          else if s = "positive" then (0.8 : Rat) else (0.5 : Rat))
    | none => ("neutral", (0.5 : Rat))
  | _ => ("neutral", (0.5 : Rat))

/-- The handler's aspect list: one aspect per label carrying all three keys.
The labels flowing through this pipeline never carry a numeric `confidence`
key, so the handler's default of `0.5` always applies. -/
def labelAspects (labels? : Option (List LabelDict)) : List AspectOut :=
  match labels? with
  | some (l :: ls) =>
    (l :: ls).filterMap (fun lb =>
      match lb.category?, lb.subcategory?, lb.sentiment? with
      | some c, some sc, some st =>
        some { name := c ++ " - " ++ sc, sentiment := pyLower st,
               confidence := (0.5 : Rat) }
      | _, _, _ => none)
  | _ => []

/-- One iteration of the handler's transformation loop;
`review_data["text"]` raises `KeyError` when the key is absent. -/
def buildProcessedReview (rd : ReviewDict) : Except PyExc ProcessedReviewOut :=
  match rd.text? with
  | none => .error .keyError
  | some t =>
    .ok { text := t,
          sentiment := (reviewSentimentScore rd.labels?).1,
          score := (reviewSentimentScore rd.labels?).2,
          aspects := labelAspects rd.labels?,
          keywords := [], language := "en" }

def buildProcessedReviews : List ReviewDict → Except PyExc (List ProcessedReviewOut)
  | [] => .ok []
  | r :: rs =>
    match buildProcessedReview r with
    | .error e => .error e
    | .ok p =>
      match buildProcessedReviews rs with
      | .error e => .error e
      | .ok ps => .ok (p :: ps)

inductive AnalyzeBody where
  | reviews (rs : List ProcessedReviewOut)
  | errorDetail (d : String)
  deriving DecidableEq, Repr

structure HttpResponse where
  status : Nat
  body : AnalyzeBody
  deriving DecidableEq, Repr

/-- The `try` block of `analyze_reviews` as a function of the processor's
`Result`: a `Success` is transformed review by review
(`result.value["reviews"]` raising `KeyError` when the key is absent); an
`Error` raises `HTTPException(status_code=500, detail=result.error)`.
Anything raised here lands in the handler's `except Exception` clause. -/
def analyzeReviewsTry (result : PyResult ResultsDict) :
    Except (Nat × String) (List ProcessedReviewOut) :=
  match result with
  | .success payload =>
    match payload.reviews? with
    | none => .error (500, "KeyError")
    | some rs =>
      match buildProcessedReviews rs with
      | .error _ => .error (500, "KeyError")
      | .ok ps => .ok ps
  | .error e => .error (500, e)

/-- The `POST /analyze` handler (`analyze_reviews`) as a function of the
processor outcome.  Its `except Exception as e:` clause catches every
exception raised in the `try` block — including the
`HTTPException(500, result.error)` raised on a processor `Error`, since
`HTTPException` derives from `Exception` — and re-raises
`HTTPException(500, "An unexpected error occurred during review analysis")`,
which the framework renders as the response.  (The sibling handler
`get_sentiment_trends` has an `except HTTPException: raise` arm precisely to
avoid this; `analyze_reviews` does not.) -/
def analyzeReviewsRoute (result : PyResult ResultsDict) : HttpResponse :=
  match analyzeReviewsTry result with
  | .ok prs => { status := 200, body := .reviews prs }
  | .error _ =>
    { status := 500,
      body := .errorDetail "An unexpected error occurred during review analysis" }

/-- C8 (counterexample): when the processor returns
`Error "LLM unavailable"`, the endpoint responds 500 — not 502 — and the
detail is the handler's generic message, not the processor's error text. -/
theorem analyze_route_counterexample :
    (analyzeReviewsRoute (.error "LLM unavailable")).status = 500 ∧
    ¬((analyzeReviewsRoute (.error "LLM unavailable")).status = 502) ∧
    ¬((analyzeReviewsRoute (.error "LLM unavailable")).body =
        .errorDetail "LLM unavailable") := by
  refine ⟨rfl, by decide, by decide⟩

theorem buildProcessedReviews_ok (rs : List ReviewDict)
    (h : ∀ r ∈ rs, r.text?.isSome) :
    ∃ ps, buildProcessedReviews rs = .ok ps ∧ ps.length = rs.length := by
  induction rs with
  | nil => exact ⟨[], rfl, rfl⟩
  | cons r rest ih =>
    obtain ⟨t, ht⟩ := Option.isSome_iff_exists.mp (h r (List.mem_cons_self r rest))
    obtain ⟨ps, hps, hlen⟩ := ih (fun x hx => h x (List.mem_cons_of_mem r hx))
    refine ⟨{ text := t, sentiment := (reviewSentimentScore r.labels?).1,
              score := (reviewSentimentScore r.labels?).2,
              aspects := labelAspects r.labels?, keywords := [],
              language := "en" } :: ps, ?_, ?_⟩
    · simp only [buildProcessedReviews, buildProcessedReview, ht, hps]
    · simp [hlen]

/-- C8 (amended): on a processor `Error` the endpoint responds 500 with the
generic detail (the blanket `except Exception` swallows the inner
`HTTPException` that carried the processor's text); on a processor `Success`
whose review dicts all carry a `text` key it responds 200 with a
`{reviews: [...]}` body holding one transformed review per processor
review. -/
theorem analyze_route_amended :
    (∀ e, analyzeReviewsRoute (.error e) =
      { status := 500,
        body := .errorDetail "An unexpected error occurred during review analysis" }) ∧
    (∀ payload rs, payload.reviews? = some rs → (∀ r ∈ rs, r.text?.isSome) →
      ∃ prs, analyzeReviewsRoute (.success payload) =
          { status := 200, body := .reviews prs } ∧ prs.length = rs.length) := by
  constructor
  · intro e
    rfl
  · intro payload rs hrs htext
    obtain ⟨ps, hps, hlen⟩ := buildProcessedReviews_ok rs htext
    exact ⟨ps, by simp only [analyzeReviewsRoute, analyzeReviewsTry, hrs, hps], hlen⟩

theorem analyze_route_amended_witness :
    analyzeReviewsRoute (.error "boom") =
      { status := 500,
        body := .errorDetail "An unexpected error occurred during review analysis" } ∧
    ∃ prs, analyzeReviewsRoute (.success
        { reviews? := some ([{ review_id? := some "1000", text? := some "great service",
                               labels? := some [] }]) }) =
        { status := 200, body := .reviews prs } ∧ prs.length = 1 :=
  ⟨analyze_route_amended.1 "boom",
   analyze_route_amended.2
     { reviews? := some ([{ review_id? := some "1000", text? := some "great service",
                            labels? := some [] }]) } _ rfl (by decide)⟩

/-! ## domain/schema.py — AnalysisRequest -/

/-- Modelled from the spec: the `AnalysisRequest` model is imported from
`domain.schema` (by `domain/__init__.py` and the package root) and exercised
by `tests/unit/test_schema.py`, but its class definition is absent from the
sources.  Spec §4.2/§8.14: on construction `batch_size` may not exceed
`len(reviews)`, `max_labels_per_review` may not exceed 10, and omitted
optional fields stay unset. -/
structure AnalysisRequest where
  reviews : List String
  batch_size : Option Nat
  confidence_threshold : Option Rat
  max_labels_per_review : Option Nat
  deriving DecidableEq, Repr

/-- Modelled from the spec: `AnalysisRequest` construction with its two
clamping validators. -/
def mkAnalysisRequest (reviews : List String) (batch_size : Option Nat)
    (confidence_threshold : Option Rat) (max_labels_per_review : Option Nat) :
    AnalysisRequest :=
  { reviews := reviews,
    batch_size := batch_size.map (fun b => min b reviews.length),
    confidence_threshold := confidence_threshold,
    max_labels_per_review := max_labels_per_review.map (fun m => min m 10) }

/-- C9: `AnalysisRequest(reviews=["one review"], batch_size=5)` stores
`batch_size = 1` (clamped to the review count),
`AnalysisRequest(reviews=["one review"], max_labels_per_review=20)` stores
`10`, and in general a stored `batch_size` never exceeds the number of
reviews and a stored `max_labels_per_review` never exceeds 10. -/
theorem analysis_request_clamps :
    ((mkAnalysisRequest ["one review"] (some 5) none none).batch_size = some 1) ∧
    ((mkAnalysisRequest ["one review"] none none (some 20)).max_labels_per_review
      = some 10) ∧
    (∀ reviews bs ct ml,
      (mkAnalysisRequest reviews bs ct ml).batch_size.getD 0 ≤ reviews.length ∧
      (mkAnalysisRequest reviews bs ct ml).max_labels_per_review.getD 0 ≤ 10) := by
  refine ⟨rfl, rfl, ?_⟩
  intro reviews bs ct ml
  constructor
  · cases bs with
    | none => simp [mkAnalysisRequest]
    | some b => simp [mkAnalysisRequest]
  · cases ml with
    | none => simp [mkAnalysisRequest]
    | some m => simp [mkAnalysisRequest]

/-! ## Reference-level frame property of validate_and_fix_label -/

/-- A heap of Python dict objects: an association list from addresses to
label dicts (newest binding first) plus the next fresh address. -/
structure Heap where
  cells : List (Nat × LabelDict)
  next : Nat

def Heap.get (h : Heap) (a : Nat) : Option LabelDict :=
  (h.cells.find? (fun p => decide (p.1 = a))).map (fun p => p.2)

def Heap.write (h : Heap) (a : Nat) (v : LabelDict) : Heap :=
  { h with cells := (a, v) :: h.cells }

def Heap.alloc (h : Heap) (v : LabelDict) : Heap × Nat :=
  ({ cells := (h.next, v) :: h.cells, next := h.next + 1 }, h.next)

/-- `validate_and_fix_label` at the reference level: the caller passes the
address of its label dict; the method's first statement is
`fixed_label = label.copy()`, allocating a fresh object, and every
subsequent assignment in the source (`fixed_label[...] = ...`) writes
through that fresh address, with combined effect `validateAndFixLabel`; the
address of the copy is returned. -/
def validateAndFixLabelRef (pick : List String → String) (h : Heap) (a : Nat) :
    Heap × Nat :=
  let label := (h.get a).getD { category? := none, subcategory? := none, sentiment? := none }
  let alloc := h.alloc label
  let h2 := alloc.1.write alloc.2 (validateAndFixLabel pick label)
  (h2, alloc.2)

/-- C10: the caller's dict is untouched — after the call the original
address holds exactly the value it held before, and the returned dict is a
distinct object.  The freshness hypothesis `a ≠ h.next` is the allocator
invariant (a live address is never the next fresh one). -/
theorem validate_and_fix_label_frame (pick : List String → String)
    (h : Heap) (a : Nat) (ha : a ≠ h.next) :
    ((validateAndFixLabelRef pick h a).1).get a = h.get a ∧
    (validateAndFixLabelRef pick h a).2 ≠ a := by
  constructor
  · unfold validateAndFixLabelRef Heap.alloc Heap.write Heap.get
    simp only [List.find?]
    rw [show (decide (h.next = a)) = false from by simp [Ne.symm ha]]
  · intro hEq
    exact ha hEq.symm

theorem validate_and_fix_label_frame_witness :
    ((validateAndFixLabelRef pickHead
        { cells := [(0, { category? := some "Positive", subcategory? := none,
                          sentiment? := none })], next := 1 } 0).1).get 0 =
      Heap.get { cells := [(0, { category? := some "Positive", subcategory? := none,
                                 sentiment? := none })], next := 1 } 0 ∧
    (validateAndFixLabelRef pickHead
        { cells := [(0, { category? := some "Positive", subcategory? := none,
                          sentiment? := none })], next := 1 } 0).2 ≠ 0 :=
  validate_and_fix_label_frame pickHead _ 0 (by decide)

end SentimentHub
